import Mathlib

/-!
Verification of the C++ notes repository against its specification.

The repository consists of four self-contained demonstration programs:
  * `STL/PartialSort.cpp` — reads integers from standard input into a
    `std::vector<int>` and calls `std::partial_sort(begin, begin+3, end)`;
  * `InterviewQues/function_Overload.cpp` — three overloads of
    `say_my_name` (const reference, non-const reference, by value) and
    three calls;
  * `InterviewQues/Weird_Integral.cpp` — integral promotion of `short`
    and `char` operands under `operator+`;
  * `initializerList.cpp` — a Q&A document about `std::initializer_list`
    and list-initialization constructor selection.

Each program is embedded shallowly below: input sequences become
`List Int`, the library call `std::partial_sort` becomes an executable
selection-based routine satisfying its documented contract, and the
compile-time rules of the C++ standard (overload resolution, constructor
selection for braced lists, integral promotion) become executable
functions over small inductive types that mirror exactly the argument
and parameter categories occurring in the source files.
-/

namespace CppNotes

/-! ## Embedding of `std::partial_sort` (`src/STL/PartialSort.cpp`)

`std::partial_sort(first, middle, last)` rearranges `[first, last)` so
that the smallest `middle - first` elements occupy `[first, middle)` in
ascending order, with the remaining elements in unspecified order.  The
embedding `partSort k l` implements this contract by repeated extraction
of a minimal element: it deterministically refines the library
specification quoted in the source file's comment block. -/

/-- Remove one occurrence of a minimal element from a list, returning the
minimum together with the remaining elements; `none` on the empty list. -/
def extractMin : List Int → Option (Int × List Int)
  | [] => none
  | x :: xs =>
    match extractMin xs with
    | none => some (x, [])
    | some (m, rest) => if x ≤ m then some (x, xs) else some (m, x :: rest)

/-- Embedding of `std::partial_sort` with `middle = first + k`: the `k`
smallest elements are moved, sorted, to the front by repeatedly
extracting a minimum of what remains. -/
def partSort : Nat → List Int → List Int
  | 0, l => l
  | k + 1, l =>
    match extractMin l with
    | none => l
    | some (m, rest) => m :: partSort k rest

/-- Full sort, as the degenerate case of the partial sort in which
`middle = last`. -/
def fullSort (l : List Int) : List Int :=
  partSort l.length l

/-- The partial-sort demo program: it reads all integers from standard
input and unconditionally forms the iterator `vec.begin() + 3`, which is
out of range when fewer than 3 integers were supplied (undefined
behavior, modelled as `none`); otherwise it partially sorts the first 3
elements and prints the whole vector. -/
def partSortDemo (input : List Int) : Option (List Int) :=
  if 3 ≤ input.length then some (partSort 3 input) else none

theorem extractMin_eq_none {l : List Int} : extractMin l = none ↔ l = [] := by
  cases l with
  | nil => simp [extractMin]
  | cons x xs =>
    simp only [extractMin]
    cases h : extractMin xs with
    | none => simp
    | some p =>
      obtain ⟨m, rest⟩ := p
      by_cases hle : x ≤ m <;> simp [hle]

theorem extractMin_perm {l : List Int} {m : Int} {rest : List Int}
    (h : extractMin l = some (m, rest)) : (m :: rest).Perm l := by
  induction l generalizing m rest with
  | nil => simp [extractMin] at h
  | cons x xs ih =>
    simp only [extractMin] at h
    cases hx : extractMin xs with
    | none =>
      rw [hx] at h
      obtain ⟨rfl, rfl⟩ : x = m ∧ rest = [] := by
        simpa using h
      have : xs = [] := extractMin_eq_none.mp hx
      subst this
      exact List.Perm.refl _
    | some p =>
      obtain ⟨m', rest'⟩ := p
      rw [hx] at h
      by_cases hle : x ≤ m'
      · simp only [hle, if_pos] at h
        obtain ⟨rfl, rfl⟩ : x = m ∧ xs = rest := by simpa using h
        exact List.Perm.refl _
      · simp only [hle, if_neg, not_false_iff] at h
        obtain ⟨rfl, rfl⟩ : m' = m ∧ x :: rest' = rest := by simpa using h
        exact (List.Perm.swap _ _ _).trans ((ih hx).cons x)

theorem extractMin_le {l : List Int} {m : Int} {rest : List Int}
    (h : extractMin l = some (m, rest)) : ∀ y ∈ l, m ≤ y := by
  induction l generalizing m rest with
  | nil => simp [extractMin] at h
  | cons x xs ih =>
    simp only [extractMin] at h
    cases hx : extractMin xs with
    | none =>
      rw [hx] at h
      obtain ⟨rfl, rfl⟩ : x = m ∧ rest = [] := by simpa using h
      have : xs = [] := extractMin_eq_none.mp hx
      subst this
      intro y hy
      simp at hy
      simp [hy]
    | some p =>
      obtain ⟨m', rest'⟩ := p
      rw [hx] at h
      by_cases hle : x ≤ m'
      · simp only [hle, if_pos] at h
        obtain ⟨rfl, rfl⟩ : x = m ∧ xs = rest := by simpa using h
        intro y hy
        rcases List.mem_cons.mp hy with rfl | hy'
        · exact le_refl _
        · exact le_trans hle (ih hx y hy')
      · simp only [hle, if_neg, not_false_iff] at h
        obtain ⟨rfl, rfl⟩ : m' = m ∧ x :: rest' = rest := by simpa using h
        intro y hy
        rcases List.mem_cons.mp hy with rfl | hy'
        · exact le_of_not_le hle
        · exact ih hx y hy'

theorem partSort_perm (k : Nat) (l : List Int) : (partSort k l).Perm l := by
  induction k generalizing l with
  | zero => exact List.Perm.refl l
  | succ k ih =>
    simp only [partSort]
    cases h : extractMin l with
    | none => exact List.Perm.refl l
    | some p =>
      obtain ⟨m, rest⟩ := p
      exact ((ih rest).cons m).trans (extractMin_perm h)

theorem partSort_length (k : Nat) (l : List Int) :
    (partSort k l).length = l.length :=
  (partSort_perm k l).length_eq

theorem partSort_take_sorted (k : Nat) (l : List Int) :
    ((partSort k l).take k).Sorted (· ≤ ·) := by
  induction k generalizing l with
  | zero => simp
  | succ k ih =>
    simp only [partSort]
    cases h : extractMin l with
    | none =>
      have : l = [] := extractMin_eq_none.mp h
      subst this; simp
    | some p =>
      obtain ⟨m, rest⟩ := p
      rw [List.take_succ_cons]
      rw [List.sorted_cons]
      refine ⟨?_, ih rest⟩
      intro b hb
      have hb1 : b ∈ partSort k rest := List.take_subset _ _ hb
      have hb2 : b ∈ rest := ((partSort_perm k rest).mem_iff).mp hb1
      have hb3 : b ∈ l := ((extractMin_perm h).mem_iff).mp
        (List.mem_cons_of_mem m hb2)
      exact extractMin_le h b hb3

theorem partSort_take_le_drop (k : Nat) (l : List Int) :
    ∀ x ∈ (partSort k l).take k, ∀ y ∈ (partSort k l).drop k, x ≤ y := by
  induction k generalizing l with
  | zero => simp
  | succ k ih =>
    simp only [partSort]
    cases h : extractMin l with
    | none =>
      have : l = [] := extractMin_eq_none.mp h
      subst this; simp
    | some p =>
      obtain ⟨m, rest⟩ := p
      rw [List.take_succ_cons, List.drop_succ_cons]
      intro x hx y hy
      rcases List.mem_cons.mp hx with rfl | hx'
      · have hy1 : y ∈ partSort k rest := List.drop_subset _ _ hy
        have hy2 : y ∈ rest := ((partSort_perm k rest).mem_iff).mp hy1
        have hy3 : y ∈ l := ((extractMin_perm h).mem_iff).mp
          (List.mem_cons_of_mem _ hy2)
        exact extractMin_le h y hy3
      · exact ih rest x hx' y hy

/-- C1: for every input sequence of at least 3 integers, the partial
sort with `middle = begin + 3` leaves a vector whose first 3 positions
hold exactly the 3 smallest values in ascending order (the prefix has
length 3, is sorted, and every prefix element is at most every suffix
element), while the whole vector remains a permutation of the input, so
the multiset of values is preserved and the suffix holds exactly the
remaining values. -/
theorem partSort_correct (l : List Int) (h : 3 ≤ l.length) :
    ((partSort 3 l).take 3).length = 3 ∧
    ((partSort 3 l).take 3).Sorted (· ≤ ·) ∧
    (∀ x ∈ (partSort 3 l).take 3, ∀ y ∈ (partSort 3 l).drop 3, x ≤ y) ∧
    (partSort 3 l).Perm l := by
  refine ⟨?_, partSort_take_sorted 3 l, partSort_take_le_drop 3 l,
    partSort_perm 3 l⟩
  rw [List.length_take, partSort_length]
  omega

/-- Witness for C1 at the demo input `5 3 8 1 9 2`. -/
theorem partSort_correct_witness :
    3 ≤ ([5, 3, 8, 1, 9, 2] : List Int).length ∧
    (((partSort 3 [5, 3, 8, 1, 9, 2]).take 3).length = 3 ∧
     ((partSort 3 [5, 3, 8, 1, 9, 2]).take 3).Sorted (· ≤ ·) ∧
     (∀ x ∈ (partSort 3 [5, 3, 8, 1, 9, 2]).take 3,
        ∀ y ∈ (partSort 3 [5, 3, 8, 1, 9, 2]).drop 3, x ≤ y) ∧
     (partSort 3 [5, 3, 8, 1, 9, 2]).Perm [5, 3, 8, 1, 9, 2]) :=
  ⟨by decide, partSort_correct [5, 3, 8, 1, 9, 2] (by decide)⟩

/-- C2: on the input `5 3 8 1 9 2` the demo produces a vector whose
first three elements are exactly `1 2 3` in that order and whose last
three elements are a permutation of the multiset `{5, 8, 9}` (here the
concrete order `5 8 9`). -/
theorem partSortDemo_example :
    partSortDemo [5, 3, 8, 1, 9, 2] = some [1, 2, 3, 5, 8, 9] ∧
    ([1, 2, 3, 5, 8, 9] : List Int).take 3 = [1, 2, 3] ∧
    (([1, 2, 3, 5, 8, 9] : List Int).drop 3).Perm [5, 8, 9] := by
  refine ⟨by decide, by decide, ?_⟩
  have hd : ([1, 2, 3, 5, 8, 9] : List Int).drop 3 = [5, 8, 9] := by decide
  rw [hd]

/-- C3: on every input with fewer than 3 integers the demo forms the
out-of-range iterator `vec.begin() + 3` with no guard, so the undefined
branch of the embedding is reached: the precondition `n ≥ 3` is
required for the program to be well defined. -/
theorem partSortDemo_underflow (input : List Int) (h : input.length < 3) :
    partSortDemo input = none := by
  simp only [partSortDemo, ite_eq_right_iff]
  omega

/-- Witness for C3 at the one-element input `7`. -/
theorem partSortDemo_underflow_witness :
    ([7] : List Int).length < 3 ∧ partSortDemo [7] = none :=
  ⟨by decide, partSortDemo_underflow [7] (by decide)⟩

/-- C10: on every input of exactly 3 integers the call has
`middle = end`, so the partial sort coincides with the full sort: the
result equals the full-sort embedding, is sorted in ascending order in
its entirety, and is a permutation of the input. -/
theorem partSort_three_eq_fullSort (l : List Int) (h : l.length = 3) :
    partSort 3 l = fullSort l ∧
    (partSort 3 l).Sorted (· ≤ ·) ∧
    (partSort 3 l).Perm l := by
  refine ⟨by rw [fullSort, h], ?_, partSort_perm 3 l⟩
  have hlen : (partSort 3 l).length = 3 := by rw [partSort_length, h]
  have htake : (partSort 3 l).take 3 = partSort 3 l :=
    List.take_of_length_le (by rw [hlen])
  have hs := partSort_take_sorted 3 l
  rwa [htake] at hs

/-- Witness for C10 at the input `3 1 2`. -/
theorem partSort_three_eq_fullSort_witness :
    ([3, 1, 2] : List Int).length = 3 ∧
    (partSort 3 [3, 1, 2] = fullSort [3, 1, 2] ∧
     (partSort 3 [3, 1, 2]).Sorted (· ≤ ·) ∧
     (partSort 3 [3, 1, 2]).Perm [3, 1, 2]) :=
  ⟨by decide, partSort_three_eq_fullSort [3, 1, 2] (by decide)⟩

/-! ## Embedding of overload resolution
(`src/InterviewQues/function_Overload.cpp`)

The source declares three overloads of `say_my_name` whose parameters
are `const std::string&`, `std::string&` and `std::string`, and calls
the function on a mutable named string `s1`, a `const` named string
`s2`, and a temporary `std::string{"Sunny"}`.  All candidate parameter
types involve the same class type, so every viable implicit conversion
sequence is an exact match and resolution is decided entirely by the
reference-binding rules of the C++ standard: a non-const lvalue cannot
bind only to a non-const lvalue reference among references, a const
lvalue and an rvalue cannot bind to a non-const lvalue reference at
all, and of two reference bindings to the same type the one referring
to the less cv-qualified type is better; no rule ranks a reference
binding against a by-value parameter, leaving them indistinguishable.
`resolve` computes the best viable function of the C++ standard:
a candidate is selected only when it is better than every other
viable candidate, and the call is ambiguous otherwise. -/

/-- The value category and constness of an argument expression. -/
inductive ArgKind
  | lvalueNonConst
  | lvalueConst
  | rvalue
deriving DecidableEq

/-- The parameter shape of a `say_my_name` overload, in its declaration
order in the source file. -/
inductive ParamKind
  | byConstRef
  | byNonConstRef
  | byValue
deriving DecidableEq

/-- Outcome of overload resolution for a call. -/
inductive Resolution
  | selected (p : ParamKind)
  | ambiguous
  | noViable
deriving DecidableEq

/-- Whether the overload with the given parameter is viable for the
given argument: a non-const lvalue reference accepts only a non-const
lvalue; a const lvalue reference and a by-value parameter accept
every argument considered here. -/
def viable (a : ArgKind) (p : ParamKind) : Bool :=
  match p with
  | ParamKind.byNonConstRef => a = ArgKind.lvalueNonConst
  | ParamKind.byConstRef => true
  | ParamKind.byValue => true

/-- Whether the implicit conversion sequence of the first parameter is
better than that of the second: with every viable conversion an exact
match here, the only applicable tie-breaker is that of two reference
bindings the one to the less cv-qualified type wins; a reference
binding is never ranked against a by-value parameter. -/
def better (p q : ParamKind) : Bool :=
  match p, q with
  | ParamKind.byNonConstRef, ParamKind.byConstRef => true
  | _, _ => false

/-- Overload resolution: filter the viable candidates, then look for a
best viable function, one better than every other viable candidate;
with none or several best candidates the call is ambiguous. -/
def resolve (a : ArgKind) (cands : List ParamKind) : Resolution :=
  let vs := cands.filter (fun p => viable a p)
  let bests := vs.filter (fun p => vs.all (fun q => decide (q = p) || better p q))
  match vs, bests with
  | [], _ => Resolution.noViable
  | _ :: _, [p] => Resolution.selected p
  | _ :: _, _ => Resolution.ambiguous

/-- The overload set of `say_my_name` in declaration order. -/
def demoOverloads : List ParamKind :=
  [ParamKind.byConstRef, ParamKind.byNonConstRef, ParamKind.byValue]

/-- The line each overload body would print. -/
def lineFor : ParamKind → String
  | ParamKind.byConstRef => "Your name is (const ref) : "
  | ParamKind.byNonConstRef => "Your name is (non-const ref) : "
  | ParamKind.byValue => "Your name is (by value) : "

/-- The three calls of `main`, in source order: `say_my_name(s1)` with
mutable `s1`, `say_my_name(s2)` with `const s2`, and
`say_my_name(std::string{"Sunny"})` with a temporary. -/
def overloadDemoCalls : List ArgKind :=
  [ArgKind.lvalueNonConst, ArgKind.lvalueConst, ArgKind.rvalue]

/-- The overload demo's output: one line per call when every call
resolves to a unique overload, and `none` when any call fails overload
resolution, in which case the translation unit is ill-formed and the
program produces no output at all. -/
def overloadDemoRun : Option (List String) :=
  overloadDemoCalls.mapM (fun a =>
    match resolve a demoOverloads with
    | Resolution.selected p => some (lineFor p)
    | _ => none)

/-- Sanity check that `resolve` does select a unique overload when one
exists: without the by-value overload the mutable named argument picks
the non-const-reference overload over the const-reference one, and
without the reference overloads the temporary picks the by-value one. -/
theorem resolve_selects_when_unambiguous :
    resolve ArgKind.lvalueNonConst [ParamKind.byConstRef, ParamKind.byNonConstRef]
      = Resolution.selected ParamKind.byNonConstRef ∧
    resolve ArgKind.lvalueConst [ParamKind.byConstRef, ParamKind.byNonConstRef]
      = Resolution.selected ParamKind.byConstRef ∧
    resolve ArgKind.rvalue [ParamKind.byNonConstRef, ParamKind.byValue]
      = Resolution.selected ParamKind.byValue ∧
    resolve ArgKind.rvalue [ParamKind.byNonConstRef]
      = Resolution.noViable := by decide

/-- C4 fails on the code: with all three overloads declared, the call
`say_my_name(s1)` does not select the non-const-reference overload; it
is ambiguous, as no rule ranks the non-const-reference binding against
the by-value parameter. -/
theorem say_my_name_s1_counterexample :
    resolve ArgKind.lvalueNonConst demoOverloads
      ≠ Resolution.selected ParamKind.byNonConstRef := by decide

/-- C4 (amended): for the mutable named argument `s1` the non-const
reference overload is a better match than the const-reference overload,
but it is not ranked against the by-value overload, so the call
`say_my_name(s1)` is ambiguous, the translation unit is ill-formed, and
no overload is selected. -/
theorem say_my_name_s1_ambiguous :
    better ParamKind.byNonConstRef ParamKind.byConstRef = true ∧
    better ParamKind.byNonConstRef ParamKind.byValue = false ∧
    better ParamKind.byValue ParamKind.byNonConstRef = false ∧
    resolve ArgKind.lvalueNonConst demoOverloads = Resolution.ambiguous := by
  decide

/-- C5 fails on the code: the call `say_my_name(s2)` with the const
named argument does not select the const-reference overload; it is
ambiguous between the const-reference and by-value overloads. -/
theorem say_my_name_s2_counterexample :
    resolve ArgKind.lvalueConst demoOverloads
      ≠ Resolution.selected ParamKind.byConstRef := by decide

/-- C5 (amended): the const-qualified argument `s2` can never bind to
the non-const-reference overload, which is not viable for it; but with
the by-value overload also an exact match, the call `say_my_name(s2)`
is ambiguous between the const-reference and by-value overloads and no
overload is selected. -/
theorem say_my_name_s2_ambiguous :
    viable ArgKind.lvalueConst ParamKind.byNonConstRef = false ∧
    viable ArgKind.lvalueConst ParamKind.byConstRef = true ∧
    viable ArgKind.lvalueConst ParamKind.byValue = true ∧
    resolve ArgKind.lvalueConst demoOverloads = Resolution.ambiguous := by
  decide

/-- C6 fails on the code: the call with the temporary
`std::string{"Sunny"}` does not select the by-value overload; it is
ambiguous, because the temporary also binds to the const-reference
overload and neither candidate is better. -/
theorem say_my_name_rvalue_counterexample :
    resolve ArgKind.rvalue demoOverloads
      ≠ Resolution.selected ParamKind.byValue := by decide

/-- C6 (amended): with no rvalue-reference overload, the temporary
argument is viable for both the const-reference and the by-value
overloads and for neither is the conversion better, so the call is
ambiguous and no overload is selected. -/
theorem say_my_name_rvalue_ambiguous :
    viable ArgKind.rvalue ParamKind.byNonConstRef = false ∧
    viable ArgKind.rvalue ParamKind.byConstRef = true ∧
    viable ArgKind.rvalue ParamKind.byValue = true ∧
    resolve ArgKind.rvalue demoOverloads = Resolution.ambiguous := by decide

/-- C7 fails on the code: the overload demo does not produce three
output lines, since overload resolution fails for its calls. -/
theorem overloadDemo_counterexample :
    overloadDemoRun.map List.length ≠ some 3 := by decide

/-- C7 (amended): every one of the three calls in `main` is ambiguous,
so the translation unit is ill-formed: the demo does not compile and
produces no output lines at all. -/
theorem overloadDemo_ill_formed :
    resolve ArgKind.lvalueNonConst demoOverloads = Resolution.ambiguous ∧
    resolve ArgKind.lvalueConst demoOverloads = Resolution.ambiguous ∧
    resolve ArgKind.rvalue demoOverloads = Resolution.ambiguous ∧
    overloadDemoRun = none := by decide

/-! ## Embedding of list-initialization constructor selection
(`src/initializerList.cpp`)

The Q&A document's classes `A` and `X` each declare a constructor from
`int` and a constructor from `std::initializer_list<int>`, the first
printing `int` and the second printing `init list`.  Constructor
selection follows the C++ list-initialization rule: for a braced
argument list, a first phase considers only `initializer_list`
constructors, and the remaining constructors are considered only if
that phase found none; for a parenthesised argument list the
`initializer_list` constructor is not a match for plain integer
arguments, so only the `int` constructor of matching arity applies. -/

/-- The two constructor shapes declared by the classes `A` and `X` of
the document. -/
inductive CtorKind
  | fromInt
  | fromInitList
deriving DecidableEq

/-- The line printed by each constructor body. -/
def ctorOutput : CtorKind → String
  | CtorKind.fromInt => "int"
  | CtorKind.fromInitList => "init list"

/-- Whether a constructor can accept the given integer arguments: the
`int` constructor needs exactly one argument, while the
`initializer_list` constructor accepts a braced list of any length. -/
def viableCtor (args : List Int) (c : CtorKind) : Bool :=
  match c with
  | CtorKind.fromInt => args.length = 1
  | CtorKind.fromInitList => true

/-- Direct (parenthesised) initialization such as `A a(10)`: an
`initializer_list` constructor is not viable for plain integer
arguments, so only a declared `int` constructor of matching arity can
be chosen. -/
def parenInit (args : List Int) (cs : List CtorKind) : Option CtorKind :=
  if CtorKind.fromInt ∈ cs ∧ args.length = 1 then some CtorKind.fromInt
  else none

/-- List (braced) initialization such as `A b{10}`, per the two-phase
rule: the first phase considers only `initializer_list` constructors,
and only if none is declared are the remaining constructors considered
as in direct initialization. -/
def braceInit (args : List Int) (cs : List CtorKind) : Option CtorKind :=
  if CtorKind.fromInitList ∈ cs then some CtorKind.fromInitList
  else parenInit args cs

/-- The constructor set shared by the document's classes `A` and `X`. -/
def classACtors : List CtorKind := [CtorKind.fromInt, CtorKind.fromInitList]

/-- C8: whenever an `initializer_list` constructor is declared
alongside a same-arity non-list constructor that is also viable, braced
initialization resolves to the `initializer_list` constructor; in
particular `A a(10)` selects the `int` constructor and prints `int`,
while `A b{10}` selects the list constructor and prints `init list`. -/
theorem braceInit_prefers_initList (args : List Int) (cs : List CtorKind)
    (h1 : CtorKind.fromInitList ∈ cs) (h2 : CtorKind.fromInt ∈ cs)
    (h3 : args.length = 1) :
    viableCtor args CtorKind.fromInt = true ∧
    braceInit args cs = some CtorKind.fromInitList ∧
    (braceInit args cs).map ctorOutput = some "init list" ∧
    parenInit args cs = some CtorKind.fromInt ∧
    (parenInit args cs).map ctorOutput = some "int" := by
  simp [viableCtor, braceInit, parenInit, ctorOutput, h1, h2, h3]

/-- Witness for C8 at the document's example `A a(10)` / `A b{10}`. -/
theorem braceInit_prefers_initList_witness :
    (CtorKind.fromInitList ∈ classACtors ∧ CtorKind.fromInt ∈ classACtors ∧
     ([10] : List Int).length = 1) ∧
    (viableCtor [10] CtorKind.fromInt = true ∧
     braceInit [10] classACtors = some CtorKind.fromInitList ∧
     (braceInit [10] classACtors).map ctorOutput = some "init list" ∧
     parenInit [10] classACtors = some CtorKind.fromInt ∧
     (parenInit [10] classACtors).map ctorOutput = some "int") :=
  ⟨⟨by decide, by decide, by decide⟩,
    braceInit_prefers_initList [10] classACtors (by decide) (by decide)
      (by decide)⟩

/-! ## Embedding of integral promotion
(`src/InterviewQues/Weird_Integral.cpp`)

The demo declares two `short int` variables holding 10 and 20 and two
`char` variables holding 40 and 50, adds each pair, and prints the
operand and result sizes.  On the reference platform `char` is 1 byte,
`short` 2 bytes and `int` 4 bytes; `operator+` applies integral
promotion to each operand before the usual arithmetic conversions, and
every integral type of rank below `int` considered here promotes to
`int`. -/

/-- The integral types occurring in the demo. -/
inductive CIntType
  | charT
  | shortT
  | intT
deriving DecidableEq

/-- The reference platform's `sizeof` for each type. -/
def sizeofType : CIntType → Nat
  | CIntType.charT => 1
  | CIntType.shortT => 2
  | CIntType.intT => 4

/-- Integral promotion: `char` and `short`, being of conversion rank
below `int` with every value representable in `int`, promote to `int`;
`int` is unchanged. -/
def promote : CIntType → CIntType
  | CIntType.charT => CIntType.intT
  | CIntType.shortT => CIntType.intT
  | CIntType.intT => CIntType.intT

/-- The result type of `operator+`: both operands are promoted, then
the usual arithmetic conversions pick the wider of the two promoted
types. -/
def usualArithResult (a b : CIntType) : CIntType :=
  if sizeofType (promote a) ≤ sizeofType (promote b) then promote b
  else promote a

/-- A value of the demo together with its static type.  The demo's
values are tiny, so the mathematical sum equals the machine sum and no
overflow reduction is needed. -/
structure TypedVal where
  ty : CIntType
  val : Int

/-- The demo's `operator+` on typed operands. -/
def addVals (x y : TypedVal) : TypedVal :=
  { ty := usualArithResult x.ty y.ty, val := x.val + y.val }

/-- `short int var1 {10}` of the demo. -/
def var1 : TypedVal := ⟨CIntType.shortT, 10⟩

/-- `short int var2 {20}` of the demo. -/
def var2 : TypedVal := ⟨CIntType.shortT, 20⟩

/-- `char var3 {40}` of the demo. -/
def var3 : TypedVal := ⟨CIntType.charT, 40⟩

/-- `char var4 {50}` of the demo. -/
def var4 : TypedVal := ⟨CIntType.charT, 50⟩

/-- `auto result1 = var1 + var2` of the demo. -/
def result1 : TypedVal := addVals var1 var2

/-- `auto result2 = var3 + var4` of the demo. -/
def result2 : TypedVal := addVals var3 var4

/-- C9: for every pair of `short` operands and every pair of `char`
operands, the sum has the platform's default signed integer type, so
its size is `sizeof(int) = 4` bytes and never the narrower operand's
2 or 1 bytes; in particular the demo's `result1` and `result2` are
4 bytes each and hold 30 and 90. -/
theorem promotion_sum_is_int :
    (∀ a b : Int,
      (addVals ⟨CIntType.shortT, a⟩ ⟨CIntType.shortT, b⟩).ty = CIntType.intT ∧
      sizeofType (addVals ⟨CIntType.shortT, a⟩ ⟨CIntType.shortT, b⟩).ty = 4 ∧
      sizeofType (addVals ⟨CIntType.shortT, a⟩ ⟨CIntType.shortT, b⟩).ty
        ≠ sizeofType CIntType.shortT) ∧
    (∀ a b : Int,
      (addVals ⟨CIntType.charT, a⟩ ⟨CIntType.charT, b⟩).ty = CIntType.intT ∧
      sizeofType (addVals ⟨CIntType.charT, a⟩ ⟨CIntType.charT, b⟩).ty = 4 ∧
      sizeofType (addVals ⟨CIntType.charT, a⟩ ⟨CIntType.charT, b⟩).ty
        ≠ sizeofType CIntType.charT) ∧
    sizeofType result1.ty = 4 ∧
    sizeofType result2.ty = 4 ∧
    sizeofType result1.ty = sizeofType CIntType.intT ∧
    result1.val = 30 ∧
    result2.val = 90 := by
  refine ⟨fun a b => ⟨rfl, rfl, ?_⟩, fun a b => ⟨rfl, rfl, ?_⟩,
    rfl, rfl, rfl, by decide, by decide⟩ <;>
    simp [addVals, usualArithResult, promote, sizeofType]

end CppNotes
